import Mathlib

set_option linter.unusedVariables false

/-!
Verification of the support-polygon / convex-hull constraint generator of the
idynutils repository (drc_shared::convex_hull, file convex_hull.cpp).

The C++ code is shallowly embedded below. Doubles are modelled as exact
rationals, pcl point clouds and yarp matrices as Lean lists, and the two
member scratch buffers of the convex_hull object as an explicit state record.
The external pcl ConvexHull reconstruction routine is not part of the
repository, so getConvexHull is parameterized by it; where a concrete hull is
needed it is modelled from the spec (Hull Builder contract, spec section 4.2)
as an Andrew monotone chain.
-/

namespace ConvexHullModel

/-- Shallow model of a pcl PointXYZ and of a KDL Vector: a 3D point. The C++
code uses doubles; the model uses exact rationals. -/
structure Point where
  x : ℚ
  y : ℚ
  z : ℚ
deriving DecidableEq, Repr

/-- Origin point, used as the default value of out-of-range list reads. -/
def Point.origin : Point := ⟨0, 0, 0⟩

/-- Componentwise sum of two vectors. -/
def Point.add (u v : Point) : Point := ⟨u.x + v.x, u.y + v.y, u.z + v.z⟩

/-- Componentwise negation of a vector. -/
def Point.neg (u : Point) : Point := ⟨-u.x, -u.y, -u.z⟩

/-- convex_hull::fromKDLVector2PCLPointXYZ (convex_hull.cpp lines 71-78):
copies the three coordinates into a pcl point. -/
def fromKDLVector2PCLPointXYZ (point : Point) : Point :=
  ⟨point.x, point.y, point.z⟩

/-- convex_hull::fromSTDList2PCLPointCloud (lines 80-84): pushes every
converted input point onto the back of the given cloud; the cloud is not
cleared first. -/
def fromSTDList2PCLPointCloud (points : List Point) (point_cloud : List Point) : List Point :=
  point_cloud ++ points.map fromKDLVector2PCLPointXYZ

/-- convex_hull::projectPCL2Plane (lines 132-163): projects every point of the
cloud onto the plane with normal (0, 0, 1) and offset 0, which replaces z by 0
and keeps x and y. The RANSAC segmentation that would read
ransac_distance_thr is commented out in the source, so the threshold is never
used. The output cloud is overwritten by proj.filter. -/
def projectPCL2Plane (cloud : List Point) (ransac_distance_thr : ℚ) : List Point :=
  cloud.map (fun p => ⟨p.x, p.y, 0⟩)

/-- convex_hull::getLineCoefficients (lines 86-96): implicit line through the
two points p0 and p1. -/
def getLineCoefficients (p0 p1 : Point) : ℚ × ℚ × ℚ :=
  let x1 := p0.x
  let x2 := p1.x
  let y1 := p0.y
  let y2 := p1.y
  let a := y1 - y2
  let b := x2 - x1
  let c := -b * y1 - a * x1
  (a, b, c)

/-- The hardcoded safety margin ch_boundary = 1e-2 of line 122. -/
def ch_boundary : ℚ := 1 / 100

/-- Lines 113-121: the A row and the bound entry chosen for one hull edge by
the sign test on c, before the margin step. -/
def edgeRowPre (p0 p1 : Point) : (ℚ × ℚ) × ℚ :=
  let abc := getLineCoefficients p0 p1
  let a := abc.1
  let b := abc.2.1
  let c := abc.2.2
  if c ≤ 0 then ((a, b), -c) else ((-a, -b), c)

/-- Lines 112-127: the full row written for one hull edge, margin step
included: when the absolute value of c is at most ch_boundary the bound is
forced to 0, otherwise ch_boundary is subtracted from it. -/
def edgeRow (p0 p1 : Point) : (ℚ × ℚ) × ℚ :=
  let pre := edgeRowPre p0 p1
  let c := (getLineCoefficients p0 p1).2.2
  if |c| ≤ ch_boundary then (pre.1, 0) else (pre.1, pre.2 - ch_boundary)

/-- Model of yarp resize on a list of rows or entries: the overlapping prefix
is kept and newly created entries hold the default value. -/
def resizeList {α : Type} (d : α) (l : List α) (n : Nat) : List α :=
  l.take n ++ List.replicate (n - l.length) d

/-- The write loop of getConstraints (lines 105-128): position z of A and b
receives the z-th generated row, then z is incremented. -/
def writeRows : List ((ℚ × ℚ) × ℚ) → Nat → List (ℚ × ℚ) → List ℚ → List (ℚ × ℚ) × List ℚ
  | [], _, A, b => (A, b)
  | r :: rs, z, A, b => writeRows rs (z + 1) (A.set z r.1) (b.set z r.2)

/-- The two endpoints of edge j of a vertex loop (lines 111-112): the hull
points at indices vs[j] and vs[(j + 1) mod vs.length]. Out-of-range reads
default to the origin. -/
def edgeOfLoop (cloud : List Point) (vs : List Nat) (j : Nat) : Point × Point :=
  (cloud.getD (vs.getD j 0) Point.origin,
   cloud.getD (vs.getD ((j + 1) % vs.length) 0) Point.origin)

/-- The rows generated by the nested loops of getConstraints, in edge
traversal order: for every loop, one row per consecutive vertex pair. -/
def constraintRows (cloud : List Point) (loops : List (List Nat)) : List ((ℚ × ℚ) × ℚ) :=
  (loops.map (fun vs =>
    (List.range vs.length).map (fun j =>
      edgeRow (edgeOfLoop cloud vs j).1 (edgeOfLoop cloud vs j).2))).flatten

/-- convex_hull::getConstraints (lines 98-130): resizes A to
(pointsInConvexHull.length, 2) and b to pointsInConvexHull.length, then writes
one row per consecutive vertex pair of every loop at positions z = 0, 1, .... -/
def getConstraints (pointsInConvexHull : List Point) (indicesOfVertexes : List (List Nat))
    (A : List (ℚ × ℚ)) (b : List ℚ) : List (ℚ × ℚ) × List ℚ :=
  writeRows (constraintRows pointsInConvexHull indicesOfVertexes) 0
    (resizeList (0, 0) A pointsInConvexHull.length)
    (resizeList 0 b pointsInConvexHull.length)

/-- The scratch state of a convex_hull object: the member buffers _pointCloud
and _projectedPointCloud allocated by the constructor (lines 28-29). -/
structure CHState where
  pointCloud : List Point
  projectedPointCloud : List Point
deriving DecidableEq, Repr

/-- The default _ransac_distance_thr = 0.001 set by the constructor (line 27). -/
def ransacDefault : ℚ := 1 / 1000

/-- convex_hull::getConvexHull (lines 39-69), parameterized by the hull
reconstruction routine huller, which stands for the external pcl ConvexHull
reconstruct call of lines 54-56 and returns the hull boundary points together
with the vertex index loops. The function returns the new scratch state and
the final contents of the by-reference arguments A and b. When the
reconstruction does not yield exactly one loop the function returns early at
line 59: A and b are left untouched and the clear calls of lines 67-68 are
skipped, so the scratch buffers keep their contents. -/
def getConvexHull (huller : List Point → List Point × List (List Nat))
    (ransac_distance_thr : ℚ) (st : CHState) (points : List Point)
    (A : List (ℚ × ℚ)) (b : List ℚ) :
    CHState × List (ℚ × ℚ) × List ℚ :=
  let pointCloud := fromSTDList2PCLPointCloud points st.pointCloud
  let projectedPointCloud := projectPCL2Plane pointCloud ransac_distance_thr
  let res := huller projectedPointCloud
  let pointsInConvexHull := res.1
  let indicesOfVertexes := res.2
  if indicesOfVertexes.length ≠ 1 then
    (⟨pointCloud, projectedPointCloud⟩, A, b)
  else
    let Ab := getConstraints pointsInConvexHull indicesOfVertexes A b
    (⟨[], []⟩, Ab.1, Ab.2)

/-- Modelled from the spec: the Hull Builder stage (spec section 4.2) is the
external pcl ConvexHull library routine, whose code is not under src. Cross
product z component used to test the turn direction of three points. -/
def crossZ (o a b : Point) : ℚ :=
  (a.x - o.x) * (b.y - o.y) - (a.y - o.y) * (b.x - o.x)

/-- Modelled from the spec: lexicographic insertion used to sort the points
for the monotone chain hull. -/
def insertPt (p : Point) : List Point → List Point
  | [] => [p]
  | q :: qs =>
    if p.x < q.x ∨ (p.x = q.x ∧ p.y ≤ q.y) then p :: q :: qs else q :: insertPt p qs

/-- Modelled from the spec: insertion sort of the point set by x then y. -/
def sortPts (l : List Point) : List Point := l.foldr insertPt []

/-- Modelled from the spec: one step of the monotone chain; points that do not
make a strict left turn are popped. The accumulator holds the chain in
reverse. -/
def chainPush (p : Point) : List Point → List Point
  | b :: a :: rest => if crossZ a b p ≤ 0 then chainPush p (a :: rest) else p :: b :: a :: rest
  | acc => p :: acc

/-- Modelled from the spec: builds one monotone chain over the given point
order. -/
def buildChain (pts : List Point) : List Point :=
  (pts.foldl (fun acc p => chainPush p acc) []).reverse

/-- Modelled from the spec: the 2D convex hull of a planar point set (Hull
Builder contract, spec section 4.2), computed as an Andrew monotone chain; for
at least three distinct extreme points it returns the boundary in
counterclockwise order with no repetition. -/
def hullPoints (pts : List Point) : List Point :=
  let s := sortPts pts.dedup
  if s.length ≤ 2 then s
  else (buildChain s).dropLast ++ (buildChain s.reverse).dropLast

/-- Modelled from the spec: the pcl ConvexHull reconstruct step of lines
54-56, which fills pointsInConvexHull with the hull boundary points and
indicesOfVertexes with the vertex loops: one loop listing every hull point in
order when a proper polygon exists, and no loop at all for degenerate input
(spec sections 4.2 and 7, DegenerateInputError case). -/
def hullerSpec (pts : List Point) : List Point × List (List Nat) :=
  let h := hullPoints pts
  if 3 ≤ h.length then (h, [List.range h.length]) else (h, [])

/-- Model of a KDL Rotation: a 3 by 3 matrix. -/
structure Rot where
  xx : ℚ
  xy : ℚ
  xz : ℚ
  yx : ℚ
  yy : ℚ
  yz : ℚ
  zx : ℚ
  zy : ℚ
  zz : ℚ
deriving DecidableEq, Repr

/-- Identity rotation, the rotation part of a default constructed KDL frame. -/
def Rot.identity : Rot := ⟨1, 0, 0, 0, 1, 0, 0, 0, 1⟩

/-- Rotation applied to a vector. -/
def Rot.apply (M : Rot) (v : Point) : Point :=
  ⟨M.xx * v.x + M.xy * v.y + M.xz * v.z,
   M.yx * v.x + M.yy * v.y + M.yz * v.z,
   M.zx * v.x + M.zy * v.y + M.zz * v.z⟩

/-- Transpose of a rotation, which is its inverse. -/
def Rot.transpose (M : Rot) : Rot :=
  ⟨M.xx, M.yx, M.zx, M.xy, M.yy, M.zy, M.xz, M.yz, M.zz⟩

/-- Rotation composition. -/
def Rot.comp (M N : Rot) : Rot :=
  ⟨M.xx * N.xx + M.xy * N.yx + M.xz * N.zx,
   M.xx * N.xy + M.xy * N.yy + M.xz * N.zy,
   M.xx * N.xz + M.xy * N.yz + M.xz * N.zz,
   M.yx * N.xx + M.yy * N.yx + M.yz * N.zx,
   M.yx * N.xy + M.yy * N.yy + M.yz * N.zy,
   M.yx * N.xz + M.yy * N.yz + M.yz * N.zz,
   M.zx * N.xx + M.zy * N.yx + M.zz * N.zx,
   M.zx * N.xy + M.zy * N.yy + M.zz * N.zy,
   M.zx * N.xz + M.zy * N.yz + M.zz * N.zz⟩

/-- Model of a KDL Frame: a rotation and a position. -/
structure Frame where
  M : Rot
  p : Point
deriving DecidableEq, Repr

/-- KDL Frame Inverse: the transpose rotation and the negated rotated
position. -/
def Frame.inverse (F : Frame) : Frame :=
  ⟨F.M.transpose, (F.M.transpose.apply F.p).neg⟩

/-- KDL Frame composition F * G. -/
def Frame.comp (F G : Frame) : Frame :=
  ⟨F.M.comp G.M, (F.M.apply G.p).add F.p⟩

/-- Abstract model of the iDynUtils robot handle as used by
getSupportPolygonPoints: the link name to index map, the index to pose map of
coman_iDyn3.getPositionKDL, and the CoM position returned by
coman_iDyn3.getCOM, all expressed in the waist frame. -/
structure Robot where
  getLinkIndex : String → Int
  getPositionKDL : Int → Frame
  getCOM : Point

/-- The eight foot corner link names pushed in lines 181-188, in order. -/
def supportPolygonLinkNames : List String :=
  ["l_foot_lower_left_link", "l_foot_lower_right_link",
   "l_foot_upper_left_link", "l_foot_upper_right_link",
   "r_foot_lower_left_link", "r_foot_lower_right_link",
   "r_foot_upper_left_link", "r_foot_upper_right_link"]

/-- The point pushed for one link name (lines 193-202): waist_T_point is the
pose of the named link, waist_T_CoM is a default frame whose position part is
overwritten with the CoM by YarptoKDL, and the pushed point is the position
component of waist_T_CoM.Inverse() * waist_T_point. -/
def supportPoint (robot : Robot) (name : String) : Point :=
  let waist_T_point := robot.getPositionKDL (robot.getLinkIndex name)
  let waist_T_CoM : Frame := ⟨Rot.identity, robot.getCOM⟩
  (waist_T_CoM.inverse.comp waist_T_point).p

/-- convex_hull::getSupportPolygonPoints (lines 177-203): pushes one CoM
relative corner point per named link onto the back of the caller list, in the
fixed name order; the list is never cleared. -/
def getSupportPolygonPoints (robot : Robot) (points : List Point) : List Point :=
  points ++ supportPolygonLinkNames.map (supportPoint robot)

/-- The square test input of the spec (section 8): the four corners of a unit
square centered at the origin, listed at height z = 0. -/
def squareInput : List Point := [⟨1, 1, 0⟩, ⟨1, -1, 0⟩, ⟨-1, -1, 0⟩, ⟨-1, 1, 0⟩]


theorem set_take_succ {α : Type} (l : List α) (z : Nat) (v : α) (h : z < l.length) :
    (l.set z v).take (z + 1) = l.take z ++ [v] := by
  rw [List.set_eq_take_cons_drop v h]
  have hz : z + 1 = (l.take z).length + 1 := by
    simp [List.length_take, Nat.min_eq_left (Nat.le_of_lt h)]
  rw [hz, List.take_append]
  simp

theorem writeRows_eq (rows : List ((ℚ × ℚ) × ℚ)) : ∀ (z : Nat) (A : List (ℚ × ℚ)) (b : List ℚ),
    z + rows.length ≤ A.length → z + rows.length ≤ b.length →
    writeRows rows z A b =
      (A.take z ++ rows.map Prod.fst ++ A.drop (z + rows.length),
       b.take z ++ rows.map Prod.snd ++ b.drop (z + rows.length)) := by
  induction rows with
  | nil =>
    intro z A b hA hb
    simp [writeRows, List.take_append_drop]
  | cons r rs ih =>
    intro z A b hA hb
    simp only [List.length_cons] at hA hb
    have hzA : z < A.length := by omega
    have hzb : z < b.length := by omega
    rw [writeRows]
    rw [ih (z + 1) (A.set z r.1) (b.set z r.2) (by simp; omega) (by simp; omega)]
    rw [set_take_succ A z r.1 hzA, set_take_succ b z r.2 hzb]
    rw [List.drop_set, List.drop_set, if_pos (by omega), if_pos (by omega)]
    have harith : z + 1 + rs.length = z + (rs.length + 1) := by omega
    rw [harith]
    simp [List.append_assoc]

theorem resizeList_length {α : Type} (d : α) (l : List α) (n : Nat) :
    (resizeList d l n).length = n := by
  simp [resizeList, List.length_take, List.length_replicate]
  omega

theorem constraintRows_single (cloud : List Point) (vs : List Nat) :
    constraintRows cloud [vs] =
      (List.range vs.length).map (fun j =>
        edgeRow (edgeOfLoop cloud vs j).1 (edgeOfLoop cloud vs j).2) := by
  simp [constraintRows]

theorem getConstraints_single (cloud : List Point) (vs : List Nat)
    (A : List (ℚ × ℚ)) (b : List ℚ) (h : vs.length = cloud.length) :
    getConstraints cloud [vs] A b =
      ((List.range vs.length).map (fun j =>
          (edgeRow (edgeOfLoop cloud vs j).1 (edgeOfLoop cloud vs j).2).1),
       (List.range vs.length).map (fun j =>
          (edgeRow (edgeOfLoop cloud vs j).1 (edgeOfLoop cloud vs j).2).2)) := by
  have hlen : (constraintRows cloud [vs]).length = vs.length := by
    rw [constraintRows_single]
    simp
  rw [getConstraints, writeRows_eq _ 0 _ _
    (by rw [hlen, resizeList_length]; omega)
    (by rw [hlen, resizeList_length]; omega)]
  rw [constraintRows_single]
  simp only [Nat.zero_add, hlen]
  rw [List.drop_eq_nil_of_le (by rw [resizeList_length]; simp; omega),
      List.drop_eq_nil_of_le (by rw [resizeList_length]; simp; omega)]
  simp [List.map_map, Function.comp]

theorem getD_range_map {α : Type} (f : Nat → α) (n j : Nat) (d : α) (h : j < n) :
    ((List.range n).map f).getD j d = f j := by
  rw [List.getD_eq_getElem?_getD, List.getElem?_map, List.getElem?_range h]
  rfl


/-- The A row of the final edge row equals the pre margin row: the margin
step of lines 122-126 only rewrites the bound entry. -/
theorem edgeRow_fst (p0 p1 : Point) : (edgeRow p0 p1).1 = (edgeRowPre p0 p1).1 := by
  unfold edgeRow
  dsimp only
  split <;> rfl

/-- C5: getLineCoefficients returns exactly a = y0 - y1, b = x1 - x0,
c = -b*y0 - a*x0 for consecutive hull vertices p0 and p1. -/
theorem getLineCoefficients_formula (p0 p1 : Point) :
    getLineCoefficients p0 p1 =
      (p0.y - p1.y, p1.x - p0.x,
       -(p1.x - p0.x) * p0.y - (p0.y - p1.y) * p0.x) := rfl

/-- C4: for every hull edge with line coefficients (a, b, c), when c is at
most 0 the A row is (a, b) and the bound before the margin shrink is -c; when
c is positive the A row is (-a, -b) and the bound before the margin shrink is
c. The A row statement is read off the final output of getConstraints for a
well formed single loop; the pre-margin bound is the value assigned at lines
116 and 120, captured by edgeRowPre. -/
theorem getConstraints_orientation_rule (cloud : List Point) (vs : List Nat)
    (A : List (ℚ × ℚ)) (bv : List ℚ) (j : Nat) (a b c : ℚ)
    (hvs : vs.length = cloud.length) (hj : j < vs.length)
    (habc : getLineCoefficients (edgeOfLoop cloud vs j).1 (edgeOfLoop cloud vs j).2 = (a, b, c)) :
    (c ≤ 0 →
      (getConstraints cloud [vs] A bv).1.getD j (0, 0) = (a, b) ∧
      edgeRowPre (edgeOfLoop cloud vs j).1 (edgeOfLoop cloud vs j).2 = ((a, b), -c)) ∧
    (0 < c →
      (getConstraints cloud [vs] A bv).1.getD j (0, 0) = (-a, -b) ∧
      edgeRowPre (edgeOfLoop cloud vs j).1 (edgeOfLoop cloud vs j).2 = ((-a, -b), c)) := by
  have hpre : edgeRowPre (edgeOfLoop cloud vs j).1 (edgeOfLoop cloud vs j).2 =
      if c ≤ 0 then ((a, b), -c) else ((-a, -b), c) := by
    unfold edgeRowPre
    rw [habc]
  have hrow : (getConstraints cloud [vs] A bv).1.getD j (0, 0) =
      (edgeRowPre (edgeOfLoop cloud vs j).1 (edgeOfLoop cloud vs j).2).1 := by
    rw [getConstraints_single cloud vs A bv hvs]
    dsimp only
    rw [getD_range_map _ _ _ _ hj, edgeRow_fst]
  constructor
  · intro hc
    rw [hrow, hpre, if_pos hc]
    exact ⟨rfl, rfl⟩
  · intro hc
    rw [hrow, hpre, if_neg (not_le.mpr hc)]
    exact ⟨rfl, rfl⟩

/-- C4 witness: the first edge of the square hull has c = 2 which is
positive, so the A row is the negated (a, b) = (0, 2), giving (0, -2). -/
theorem getConstraints_orientation_rule_witness :
    (getConstraints [⟨-1, -1, 0⟩, ⟨1, -1, 0⟩, ⟨1, 1, 0⟩, ⟨-1, 1, 0⟩] [[0, 1, 2, 3]]
      [] []).1.getD 0 (0, 0) = (0, -2) := by
  have h := (getConstraints_orientation_rule
    [⟨-1, -1, 0⟩, ⟨1, -1, 0⟩, ⟨1, 1, 0⟩, ⟨-1, 1, 0⟩] [0, 1, 2, 3] [] [] 0 0 2 2
    (by rfl) (by norm_num)
    (by norm_num [getLineCoefficients, edgeOfLoop])).2 (by norm_num)
  rw [h.1]
  norm_num

/-- C3: for every hull edge row, when the absolute value of c is at most the
margin 0.01 the b entry of the output is exactly 0, and otherwise 0.01 is
subtracted from the pre-margin bound; the margin is applied per edge and a
near zero c is handled by the zero rule, not treated as an error (the row is
still produced). -/
theorem getConstraints_margin_rule (cloud : List Point) (vs : List Nat)
    (A : List (ℚ × ℚ)) (bv : List ℚ) (j : Nat)
    (hvs : vs.length = cloud.length) (hj : j < vs.length) :
    (|(getLineCoefficients (edgeOfLoop cloud vs j).1 (edgeOfLoop cloud vs j).2).2.2| ≤
        ch_boundary →
      (getConstraints cloud [vs] A bv).2.getD j 0 = 0) ∧
    (ch_boundary <
        |(getLineCoefficients (edgeOfLoop cloud vs j).1 (edgeOfLoop cloud vs j).2).2.2| →
      (getConstraints cloud [vs] A bv).2.getD j 0 =
        (edgeRowPre (edgeOfLoop cloud vs j).1 (edgeOfLoop cloud vs j).2).2 - ch_boundary) := by
  have hb : (getConstraints cloud [vs] A bv).2.getD j 0 =
      (edgeRow (edgeOfLoop cloud vs j).1 (edgeOfLoop cloud vs j).2).2 := by
    rw [getConstraints_single cloud vs A bv hvs]
    dsimp only
    rw [getD_range_map _ _ _ _ hj]
  constructor
  · intro h
    rw [hb]
    unfold edgeRow
    dsimp only
    rw [if_pos h]
  · intro h
    rw [hb]
    unfold edgeRow
    dsimp only
    rw [if_neg (not_le.mpr h)]

/-- C3 witness: the first edge of the square hull has c = 2, above the
margin, so the b entry is the pre-margin bound 2 minus 0.01. -/
theorem getConstraints_margin_rule_witness :
    (getConstraints [⟨-1, -1, 0⟩, ⟨1, -1, 0⟩, ⟨1, 1, 0⟩, ⟨-1, 1, 0⟩] [[0, 1, 2, 3]]
      [] []).2.getD 0 0 = 199 / 100 := by
  have h := (getConstraints_margin_rule
    [⟨-1, -1, 0⟩, ⟨1, -1, 0⟩, ⟨1, 1, 0⟩, ⟨-1, 1, 0⟩] [0, 1, 2, 3] [] [] 0
    (by rfl) (by norm_num)).2
    (by norm_num [getLineCoefficients, edgeOfLoop, ch_boundary])
  rw [h]
  norm_num [edgeRowPre, getLineCoefficients, edgeOfLoop, ch_boundary]


/-- C6: for a well formed single loop hull (one loop whose index list has one
entry per hull cloud point), the output A has exactly one row per boundary
edge and b one entry per boundary edge, in edge traversal order, with no row
merged or dropped: row j is exactly the row generated for the edge from
vertex vs[j] to vertex vs[(j+1) mod E]. -/
theorem getConstraints_row_per_edge (cloud : List Point) (vs : List Nat)
    (A : List (ℚ × ℚ)) (bv : List ℚ) (hvs : vs.length = cloud.length) :
    (getConstraints cloud [vs] A bv).1.length = vs.length ∧
    (getConstraints cloud [vs] A bv).2.length = vs.length ∧
    ∀ j, j < vs.length →
      (getConstraints cloud [vs] A bv).1.getD j (0, 0) =
        (edgeRow (edgeOfLoop cloud vs j).1 (edgeOfLoop cloud vs j).2).1 ∧
      (getConstraints cloud [vs] A bv).2.getD j 0 =
        (edgeRow (edgeOfLoop cloud vs j).1 (edgeOfLoop cloud vs j).2).2 := by
  rw [getConstraints_single cloud vs A bv hvs]
  refine ⟨by simp, by simp, ?_⟩
  intro j hj
  dsimp only
  rw [getD_range_map _ _ _ _ hj, getD_range_map _ _ _ _ hj]
  exact ⟨rfl, rfl⟩

/-- C6 witness: on the square hull with its four edge loop, A has 4 rows and
b has 4 entries, and row 1 is the row of the edge from vertex 1 to vertex 2. -/
theorem getConstraints_row_per_edge_witness :
    (getConstraints [⟨-1, -1, 0⟩, ⟨1, -1, 0⟩, ⟨1, 1, 0⟩, ⟨-1, 1, 0⟩] [[0, 1, 2, 3]]
      [] []).1.length = 4 ∧
    (getConstraints [⟨-1, -1, 0⟩, ⟨1, -1, 0⟩, ⟨1, 1, 0⟩, ⟨-1, 1, 0⟩] [[0, 1, 2, 3]]
      [] []).1.getD 1 (0, 0) = (2, 0) := by
  have h := getConstraints_row_per_edge
    [⟨-1, -1, 0⟩, ⟨1, -1, 0⟩, ⟨1, 1, 0⟩, ⟨-1, 1, 0⟩] [0, 1, 2, 3] [] [] (by rfl)
  refine ⟨h.1, ?_⟩
  rw [(h.2.2 1 (by norm_num)).1]
  norm_num [edgeRow, edgeRowPre, edgeOfLoop, getLineCoefficients, ch_boundary]

/-- C7: planar projection maps each point (x, y, z) to (x, y, 0), one output
point per input point in the same position; an empty input produces an empty
output, and projecting an already planar point set is the identity. -/
theorem projectPCL2Plane_spec (cloud : List Point) (thr : ℚ) :
    (projectPCL2Plane cloud thr).length = cloud.length ∧
    (∀ j, j < cloud.length →
      (projectPCL2Plane cloud thr).getD j Point.origin =
        ⟨(cloud.getD j Point.origin).x, (cloud.getD j Point.origin).y, 0⟩) ∧
    projectPCL2Plane ([] : List Point) thr = [] ∧
    ((∀ p ∈ cloud, p.z = 0) → projectPCL2Plane cloud thr = cloud) := by
  refine ⟨by simp [projectPCL2Plane], ?_, rfl, ?_⟩
  · intro j hj
    rw [projectPCL2Plane, List.getD_eq_getElem?_getD, List.getElem?_map,
        List.getElem?_eq_getElem hj, List.getD_eq_getElem?_getD,
        List.getElem?_eq_getElem hj]
    rfl
  · intro hz
    rw [projectPCL2Plane]
    conv_rhs => rw [← List.map_id cloud]
    refine List.map_congr_left ?_
    intro p hp
    have hzp := hz p hp
    cases p
    simp_all

/-- C7 witness: projecting a planar two point cloud returns it unchanged, and
the point at index 0 of the projection of a non planar point keeps x and y
and zeroes z. -/
theorem projectPCL2Plane_spec_witness :
    projectPCL2Plane [⟨1, 2, 0⟩, ⟨-3, 4, 0⟩] ransacDefault = [⟨1, 2, 0⟩, ⟨-3, 4, 0⟩] ∧
    (projectPCL2Plane [⟨5, 6, 7⟩] ransacDefault).getD 0 Point.origin = ⟨5, 6, 0⟩ := by
  constructor
  · exact (projectPCL2Plane_spec [⟨1, 2, 0⟩, ⟨-3, 4, 0⟩] ransacDefault).2.2.2
      (by intro p hp; simp at hp; rcases hp with h | h <;> rw [h])
  · rw [(projectPCL2Plane_spec [⟨5, 6, 7⟩] ransacDefault).2.1 0 (by norm_num)]
    rfl


/-- C1 counterexample: on an empty input point list the modelled hull step
yields zero loops, so the call fails, but the caller A matrix is NOT emptied:
a call made with A = [(1, 1)] and b = [1] returns them unchanged, so the
produced (A, b) is not empty. -/
theorem getConvexHull_failure_A_not_emptied :
    (hullerSpec (projectPCL2Plane (fromSTDList2PCLPointCloud []
        (CHState.mk [] []).pointCloud) ransacDefault)).2.length = 0 ∧
    (getConvexHull hullerSpec ransacDefault ⟨[], []⟩ [] [(1, 1)] [1]).2.1 = [(1, 1)] ∧
    ([(1, 1)] : List (ℚ × ℚ)) ≠ [] := by
  refine ⟨rfl, rfl, by simp⟩

/-- C1 amended: when the hull reconstruction yields zero or more than one
loop, getConvexHull returns early: the constraint generation step does not
run and the caller A and b are left exactly as they were, so no partial
output is written, but they are not resized to empty either. -/
theorem getConvexHull_failure_leaves_output_unchanged
    (huller : List Point → List Point × List (List Nat)) (thr : ℚ) (st : CHState)
    (points : List Point) (A : List (ℚ × ℚ)) (b : List ℚ)
    (h : (huller (projectPCL2Plane (fromSTDList2PCLPointCloud points st.pointCloud)
        thr)).2.length ≠ 1) :
    getConvexHull huller thr st points A b =
      (⟨fromSTDList2PCLPointCloud points st.pointCloud,
        projectPCL2Plane (fromSTDList2PCLPointCloud points st.pointCloud) thr⟩, A, b) := by
  simp only [getConvexHull]
  rw [if_pos h]

/-- C1 witness: a concrete failing call (empty input, zero loops) returns the
caller A and b untouched. -/
theorem getConvexHull_failure_leaves_output_unchanged_witness :
    getConvexHull hullerSpec ransacDefault ⟨[], []⟩ [] [(1, 2)] [3] =
      (⟨[], []⟩, [(1, 2)], [3]) := by
  have h := getConvexHull_failure_leaves_output_unchanged hullerSpec ransacDefault
    ⟨[], []⟩ [] [(1, 2)] [3] (by decide)
  simpa using h

/-- C2: a call that fails the single loop check returns before the clear
calls, so the scratch buffers are NOT cleared: a failed call on input
[(5, 5, 0)] leaves both buffers holding that point, and a following call with
the square input then produces an A computed over the stale point too, and
different from the A of the same call made from clean buffers. -/
theorem getConvexHull_failure_skips_buffer_clear :
    (getConvexHull hullerSpec ransacDefault ⟨[], []⟩ [⟨5, 5, 0⟩] [] []).1 =
      ⟨[⟨5, 5, 0⟩], [⟨5, 5, 0⟩]⟩ ∧
    (getConvexHull hullerSpec ransacDefault ⟨[⟨5, 5, 0⟩], [⟨5, 5, 0⟩]⟩
        squareInput [] []).2.1 ≠
      (getConvexHull hullerSpec ransacDefault ⟨[], []⟩ squareInput [] []).2.1 := by
  have h1 : (getConvexHull hullerSpec ransacDefault ⟨[⟨5, 5, 0⟩], [⟨5, 5, 0⟩]⟩
      squareInput [] []).2.1 = [(0, -2), (6, -4), (-4, 6), (-2, 0)] := by
    norm_num [getConvexHull, hullerSpec, hullPoints, sortPts, insertPt, buildChain,
      chainPush, crossZ, squareInput, projectPCL2Plane, fromSTDList2PCLPointCloud,
      fromKDLVector2PCLPointXYZ, List.dedup, getConstraints, constraintRows, edgeOfLoop,
      edgeRow, edgeRowPre, getLineCoefficients, ch_boundary, resizeList, writeRows,
      List.range_succ, List.replicate_succ, List.set_cons_zero, List.set_cons_succ]
  have h2 : (getConvexHull hullerSpec ransacDefault ⟨[], []⟩ squareInput [] []).2.1 =
      [(0, -2), (2, 0), (0, 2), (-2, 0)] := by
    norm_num [getConvexHull, hullerSpec, hullPoints, sortPts, insertPt, buildChain,
      chainPush, crossZ, squareInput, projectPCL2Plane, fromSTDList2PCLPointCloud,
      fromKDLVector2PCLPointXYZ, List.dedup, getConstraints, constraintRows, edgeOfLoop,
      edgeRow, edgeRowPre, getLineCoefficients, ch_boundary, resizeList, writeRows,
      List.range_succ, List.replicate_succ, List.set_cons_zero, List.set_cons_succ]
  refine ⟨?_, ?_⟩
  · norm_num [getConvexHull, hullerSpec, hullPoints, sortPts, insertPt, buildChain,
      chainPush, crossZ, projectPCL2Plane, fromSTDList2PCLPointCloud,
      fromKDLVector2PCLPointXYZ, List.dedup]
  · rw [h1, h2]
    norm_num

/-- C8: on the unit square input the computed hull contains all four corner
points, and the resulting (A, b) with the 0.01 margin accepts the origin
(every row satisfied) and rejects the point (2, 2) (some row violated). -/
theorem square_test_case :
    (∀ p ∈ squareInput,
      p ∈ (hullerSpec (projectPCL2Plane (fromSTDList2PCLPointCloud squareInput [])
        ransacDefault)).1) ∧
    (∀ rb ∈ ((getConvexHull hullerSpec ransacDefault ⟨[], []⟩ squareInput [] []).2.1).zip
        ((getConvexHull hullerSpec ransacDefault ⟨[], []⟩ squareInput [] []).2.2),
      rb.1.1 * 0 + rb.1.2 * 0 ≤ rb.2) ∧
    (∃ rb ∈ ((getConvexHull hullerSpec ransacDefault ⟨[], []⟩ squareInput [] []).2.1).zip
        ((getConvexHull hullerSpec ransacDefault ⟨[], []⟩ squareInput [] []).2.2),
      ¬ rb.1.1 * 2 + rb.1.2 * 2 ≤ rb.2) := by
  have hhull : hullerSpec (projectPCL2Plane (fromSTDList2PCLPointCloud squareInput [])
      ransacDefault) =
      ([⟨-1, -1, 0⟩, ⟨1, -1, 0⟩, ⟨1, 1, 0⟩, ⟨-1, 1, 0⟩], [[0, 1, 2, 3]]) := by
    norm_num [hullerSpec, hullPoints, sortPts, insertPt, buildChain, chainPush, crossZ,
      squareInput, projectPCL2Plane, fromSTDList2PCLPointCloud,
      fromKDLVector2PCLPointXYZ, List.dedup, List.range_succ]
  have hcall : getConvexHull hullerSpec ransacDefault ⟨[], []⟩ squareInput [] [] =
      (⟨[], []⟩, [(0, -2), (2, 0), (0, 2), (-2, 0)],
       [199 / 100, 199 / 100, 199 / 100, 199 / 100]) := by
    norm_num [getConvexHull, hullerSpec, hullPoints, sortPts, insertPt, buildChain,
      chainPush, crossZ, squareInput, projectPCL2Plane, fromSTDList2PCLPointCloud,
      fromKDLVector2PCLPointXYZ, List.dedup, getConstraints, constraintRows, edgeOfLoop,
      edgeRow, edgeRowPre, getLineCoefficients, ch_boundary, resizeList, writeRows,
      List.range_succ, List.replicate_succ, List.set_cons_zero, List.set_cons_succ]
  refine ⟨?_, ?_, ?_⟩
  · intro p hp
    rw [hhull]
    simp only [squareInput] at hp
    simp only [List.mem_cons, List.not_mem_nil, or_false] at hp ⊢
    rcases hp with h | h | h | h <;> simp [h]
  · intro rb hrb
    rw [hcall] at hrb
    simp only [List.zip, List.zipWith, List.mem_cons, List.not_mem_nil, or_false] at hrb
    rcases hrb with h | h | h | h <;> rw [h] <;> norm_num
  · refine ⟨((2, 0), 199 / 100), ?_, by norm_num⟩
    rw [hcall]
    simp [List.zip, List.zipWith]

/-- C9: the RANSAC distance threshold is inert: any two threshold values give
the same projected cloud and the same getConvexHull result on the same
inputs. -/
theorem ransac_threshold_inert (thr1 thr2 : ℚ) (cloud : List Point)
    (huller : List Point → List Point × List (List Nat)) (st : CHState)
    (points : List Point) (A : List (ℚ × ℚ)) (b : List ℚ) :
    projectPCL2Plane cloud thr1 = projectPCL2Plane cloud thr2 ∧
    getConvexHull huller thr1 st points A b = getConvexHull huller thr2 st points A b :=
  ⟨rfl, rfl⟩

/-- C10: for every robot state and every initial list, getSupportPolygonPoints
appends exactly eight points at the end, one per named foot corner link in the
fixed left lower left through right upper right order, each the position
component of waist_T_CoM.Inverse() * waist_T_point, and the points already in
the list stay unchanged in place. -/
theorem getSupportPolygonPoints_appends_eight (robot : Robot) (points : List Point) :
    getSupportPolygonPoints robot points =
      points ++
        [supportPoint robot "l_foot_lower_left_link",
         supportPoint robot "l_foot_lower_right_link",
         supportPoint robot "l_foot_upper_left_link",
         supportPoint robot "l_foot_upper_right_link",
         supportPoint robot "r_foot_lower_left_link",
         supportPoint robot "r_foot_lower_right_link",
         supportPoint robot "r_foot_upper_left_link",
         supportPoint robot "r_foot_upper_right_link"] ∧
    (getSupportPolygonPoints robot points).take points.length = points ∧
    (getSupportPolygonPoints robot points).length = points.length + 8 := by
  refine ⟨rfl, ?_, by simp [getSupportPolygonPoints, supportPolygonLinkNames]⟩
  rw [getSupportPolygonPoints]
  exact List.take_left points _

end ConvexHullModel
